import Mathlib

/-!
Shallow embedding of `src/auction.py` (pH14/mini-auction), a FoundationDB-backed
auction marketplace.

Two layers are modelled:

1. The key codec: the FoundationDB tuple-layer encoding used by the three
   subspaces `auctions`, `bids`, `bidders` (source lines 6-10 and the
   `id_tuple` / `*_tuple` properties of `Auction`, `Bidder`, `Bid`,
   lines 31-110).  Byte strings are lists of naturals; the common directory
   prefix allocated for `('auction-kv',)` is omitted since it is prepended
   identically to every key and so changes no equality, prefix or ordering
   fact.

2. The transactional operations (`add_auction`, `close_auction`,
   `is_auction_open`, `winning_bid`, `add_bidder`, `submit_bid`,
   `bids_for_bidder`, `bids_for_auction`, source lines 114-219) over a store
   that maps structured keys to values.  The structured key type `Key`
   mirrors exactly the tuples the source packs; the bridge theorem
   `C6_key_encoding_injective` proves the byte encoding of `Key` injective,
   which justifies using `Key` itself as the store's key type.  Values are
   the strings the source writes, tagged by how the source re-parses them
   (`float(str(v))`, `int(v)`, string comparison).  Python exceptions
   (e.g. `float('')` on a missing value) are modelled as `none`.
-/

namespace MiniAuction

/-- Byte strings (each element is one byte, 0..255; names are ASCII). -/
abbrev Bytes := List Nat

abbrev Str := String

/-- FDB tuple-layer escaping of a string/bytes payload: every 0x00 byte is
written as 0x00 0xFF. -/
def escape : Bytes → Bytes
  | [] => []
  | 0 :: t => 0 :: 255 :: escape t
  | b :: t => b :: escape t

/-- Inverse of `escape` followed by the 0x00 terminator: parses one payload,
returning the payload and the bytes after the terminator.  A 0x00 followed by
0xFF is an escaped 0x00; a 0x00 followed by anything else terminates. -/
def unescape : Bytes → Option (Bytes × Bytes)
  | [] => none
  | b :: t =>
    if b = 0 then
      match t with
      | c :: t2 =>
        if c = 255 then (unescape t2).map (fun pr => (0 :: pr.1, pr.2))
        else some ([], t)
      | [] => some ([], [])
    else (unescape t).map (fun pr => (b :: pr.1, pr.2))

/-- Minimal big-endian byte representation of a natural number. -/
def beBytes (n : Nat) : Bytes :=
  if h : n = 0 then [] else beBytes (n / 256) ++ [n % 256]
termination_by n
decreasing_by exact Nat.div_lt_self (Nat.pos_of_ne_zero h) (by norm_num)

/-- Big-endian read-back of a byte list. -/
def fromBE (l : Bytes) : Nat := l.foldl (fun a b => 256 * a + b) 0

/-- One element of an FDB tuple as used by the source: a (byte) string
(type code 0x02), a nested-key bytes value (type code 0x01), or a
non-negative integer sequence number (type codes 0x14..0x1c). -/
inductive Elem
  | str (p : Bytes)
  | bytes (p : Bytes)
  | int (n : Nat)
deriving DecidableEq

/-- FDB int elements carry at most 8 magnitude bytes. -/
def elemWF : Elem → Bool
  | Elem.int n => decide (n < 2 ^ 64)
  | _ => true

/-- FDB tuple-layer encoding of one element. -/
def encodeElem : Elem → Bytes
  | Elem.str p => 2 :: (escape p ++ [0])
  | Elem.bytes p => 1 :: (escape p ++ [0])
  | Elem.int n => (20 + (beBytes n).length) :: beBytes n

/-- `subspace.pack(tuple)`: concatenation of the element encodings. -/
def packTuple (es : List Elem) : Bytes := (es.map encodeElem).flatten

/-- Decoder for one element (used only to prove the encoding injective). -/
def decodeElem : Bytes → Option (Elem × Bytes)
  | [] => none
  | c :: t =>
    if c = 2 then (unescape t).map (fun pr => (Elem.str pr.1, pr.2))
    else if c = 1 then (unescape t).map (fun pr => (Elem.bytes pr.1, pr.2))
    else if 20 ≤ c ∧ c ≤ 28 then
      if c - 20 ≤ t.length then some (Elem.int (fromBE (t.take (c - 20))), t.drop (c - 20))
      else none
    else none

/-- Fuelled decoder for a whole tuple. -/
def decodeTupleAux : Nat → Bytes → Option (List Elem)
  | _, [] => some []
  | 0, _ :: _ => none
  | fuel + 1, b :: t =>
    match decodeElem (b :: t) with
    | some (e, r) => (decodeTupleAux fuel r).map (fun es => e :: es)
    | none => none

/-- Byte payload of a Lean string (names in the source are ASCII). -/
def strBytes (s : Str) : Bytes := s.data.map Char.toNat

/-- A string element of a tuple. -/
def strElem (s : Str) : Elem := Elem.str (strBytes s)

/-- `Bidder.id_tuple` is `tuple(self.name)` (source line 69): the tuple of the
name's characters, each a one-character string element. -/
def charElems (s : Str) : List Elem := (strBytes s).map (fun c => Elem.str [c])

/-- The structured keys written and read by the source.  Constructor by
constructor these are: `auctions_ss.pack(auction.id_tuple)`,
`auctions_ss.pack(auction.highest_bid_tuple)`,
`auctions_ss.pack(auction.winning_bidder_tuple)`,
`auctions_ss.pack(auction.num_bids_tuple)`,
`bidders_ss.pack(bidder.id_tuple)`, `bidders_ss.pack(bidder.num_bids_tuple)`,
`bids_ss[auction_key][i]`, `bids_ss[bidder_key][i]`. -/
inductive Key
  | auctionStatus (name desc : Str)
  | auctionHighest (name desc : Str)
  | auctionWinner (name desc : Str)
  | auctionNumBids (name desc : Str)
  | bidderRecord (name : Str)
  | bidderNumBids (name : Str)
  | bidAuction (name desc : Str) (seq : Nat)
  | bidBidder (name : Str) (seq : Nat)
deriving DecidableEq

/-- Sequence numbers fit in 8 bytes (FDB int elements). -/
def keyWF : Key → Bool
  | Key.bidAuction _ _ i => decide (i < 2 ^ 64)
  | Key.bidBidder _ i => decide (i < 2 ^ 64)
  | _ => true

/-- `auctions_ss.pack(auction.id_tuple)`: the full packed auction record key,
subspace prefix included (it is this byte string that `submit_bid` nests
inside the `bids` subspace). -/
def auctionIdBytes (n d : Str) : Bytes :=
  packTuple [strElem "auctions", strElem n, strElem d]

/-- `bidders_ss.pack(bidder.id_tuple)`: note `id_tuple` is the tuple of the
name's characters. -/
def bidderIdBytes (n : Str) : Bytes :=
  packTuple (strElem "bidders" :: charElems n)

/-- The tuple of elements a structured key packs. -/
def keyElems : Key → List Elem
  | Key.auctionStatus n d => [strElem "auctions", strElem n, strElem d]
  | Key.auctionHighest n d => [strElem "auctions", strElem n, strElem d, strElem "highest_bid"]
  | Key.auctionWinner n d => [strElem "auctions", strElem n, strElem d, strElem "winning_bidder"]
  | Key.auctionNumBids n d => [strElem "auctions", strElem n, strElem d, strElem "num_bids"]
  | Key.bidderRecord n => strElem "bidders" :: charElems n
  | Key.bidderNumBids n => [strElem "bidders", strElem n, strElem "num_bids"]
  | Key.bidAuction n d i => [strElem "bids", Elem.bytes (auctionIdBytes n d), Elem.int i]
  | Key.bidBidder n i => [strElem "bids", Elem.bytes (bidderIdBytes n), Elem.int i]

/-- The encoded byte key of a structured key (directory prefix omitted, see
the module comment). -/
def encodeKey (k : Key) : Bytes := packTuple (keyElems k)

/-- Inverse of `strBytes` (the source's names are exactly round-tripped). -/
def strOfBytes (p : Bytes) : Str := ⟨p.map Char.ofNat⟩

/-- Read back a list of one-character string elements (the shape of
`charElems`), used only to prove the key encoding injective. -/
def singles : List Elem → Option (List Char)
  | [] => some []
  | Elem.str [c] :: t => (singles t).map (fun cs => Char.ofNat c :: cs)
  | _ => none

/-- Decoder from element tuples back to structured keys, used only to prove
the key encoding injective. -/
def elemsKey : List Elem → Option Key
  | Elem.str a :: rest =>
    if a = strBytes "auctions" then
      match rest with
      | [Elem.str n, Elem.str d] => some (Key.auctionStatus (strOfBytes n) (strOfBytes d))
      | [Elem.str n, Elem.str d, Elem.str f] =>
        if f = strBytes "highest_bid" then
          some (Key.auctionHighest (strOfBytes n) (strOfBytes d))
        else if f = strBytes "winning_bidder" then
          some (Key.auctionWinner (strOfBytes n) (strOfBytes d))
        else if f = strBytes "num_bids" then
          some (Key.auctionNumBids (strOfBytes n) (strOfBytes d))
        else none
      | _ => none
    else if a = strBytes "bidders" then
      match rest with
      | [Elem.str n, Elem.str f] =>
        if f = strBytes "num_bids" then some (Key.bidderNumBids (strOfBytes n))
        else (singles rest).map (fun cs => Key.bidderRecord ⟨cs⟩)
      | _ => (singles rest).map (fun cs => Key.bidderRecord ⟨cs⟩)
    else if a = strBytes "bids" then
      match rest with
      | [Elem.bytes sk, Elem.int i] =>
        match decodeTupleAux sk.length sk with
        | some (Elem.str a2 :: rest2) =>
          if a2 = strBytes "auctions" then
            match rest2 with
            | [Elem.str n, Elem.str d] => some (Key.bidAuction (strOfBytes n) (strOfBytes d) i)
            | _ => none
          else if a2 = strBytes "bidders" then
            (singles rest2).map (fun cs => Key.bidBidder ⟨cs⟩ i)
          else none
        | _ => none
      | _ => none
    else none
  | _ => none

/-- Values stored by the source.  Everything is a string in FoundationDB; the
tags record how the source writes and re-parses each slot: `str` for status
strings, bidder names and the `str(bidder)` record, `num` for
`str(bid.value)` re-read with `float(...)`, `int` for the `str(count)`
counters re-read with `int(...)`, `bidRepr` for the `str(bid)` log entries. -/
inductive Val
  | str (s : Str)
  | num (q : ℚ)
  | int (n : Nat)
  | bidRepr (bidder aname adesc : Str) (amount : ℚ)
deriving DecidableEq

/-- The key-value store visible through a transaction handle. -/
abbrev Store := List (Key × Val)

/-- `tr[k]` as a read: the value at `k`, if present. -/
def kvGet : Store → Key → Option Val
  | [], _ => none
  | (k', v) :: t, k => if k' = k then some v else kvGet t k

/-- `tr[k] = v`: overwrite or append. -/
def kvSet : Store → Key → Val → Store
  | [], k, v => [(k, v)]
  | (k', v') :: t, k, v => if k' = k then (k, v) :: t else (k', v') :: kvSet t k v

/-- A bid request: `Bid(bidder, auction, value)` (source lines 85-110). -/
structure BidReq where
  bidder : Str
  aname : Str
  adesc : Str
  amount : ℚ
deriving DecidableEq

/-- Result of `add_auction` / `close_auction` / `add_bidder`: the source
reports the failure with a print and returns early. -/
inductive OpResult
  | ok
  | alreadyExists
  | notFound
deriving DecidableEq

/-- Outcome of `submit_bid` (each early return corresponds to one of the
source's precondition prints, lines 173-187). -/
inductive Outcome
  | accepted
  | notFound
  | closed
  | tooLow
  | alreadyWinning
deriving DecidableEq

/-- `add_auction` (source lines 114-125): reject when the auction record key
is present; otherwise write `OPEN`, `'0'`, `''`, `'0'` in source order. -/
def add_auction (s : Store) (n d : Str) : OpResult × Store :=
  if (kvGet s (Key.auctionStatus n d)).isSome then (OpResult.alreadyExists, s)
  else
    (OpResult.ok,
      kvSet (kvSet (kvSet (kvSet s
        (Key.auctionStatus n d) (Val.str "OPEN"))
        (Key.auctionHighest n d) (Val.num 0))
        (Key.auctionWinner n d) (Val.str ""))
        (Key.auctionNumBids n d) (Val.int 0))

/-- `close_auction` (source lines 127-135). -/
def close_auction (s : Store) (n d : Str) : OpResult × Store :=
  if (kvGet s (Key.auctionStatus n d)).isSome then
    (OpResult.ok, kvSet s (Key.auctionStatus n d) (Val.str "CLOSED"))
  else (OpResult.notFound, s)

/-- `add_bidder` (source lines 157-166): the record value is
`str(bidder) = "Bidder(name)"`. -/
def add_bidder (s : Store) (n : Str) : OpResult × Store :=
  if (kvGet s (Key.bidderRecord n)).isSome then (OpResult.alreadyExists, s)
  else
    (OpResult.ok,
      kvSet (kvSet s
        (Key.bidderRecord n) (Val.str ("Bidder(" ++ n ++ ")")))
        (Key.bidderNumBids n) (Val.int 0))

/-- A query outcome: on an absent auction both `is_auction_open` and
`winning_bid` (source lines 137-155) execute
`print "..." % (bid.bidder, bid.auction)` where `bid` is not defined in
scope, so the call raises `NameError` instead of reporting not-found. -/
inductive ReadOutcome (α : Type)
  | raisesNameError
  | ok (v : α)
deriving DecidableEq

/-- `is_auction_open` (source lines 137-145). -/
def is_auction_open (s : Store) (n d : Str) : ReadOutcome Bool :=
  match kvGet s (Key.auctionStatus n d) with
  | none => ReadOutcome.raisesNameError
  | some st => ReadOutcome.ok (st = Val.str "OPEN")

/-- `winning_bid` (source lines 147-155): returns the raw values at the
winning-bidder and highest-bid keys. -/
def winning_bid (s : Store) (n d : Str) : ReadOutcome (Option Val × Option Val) :=
  match kvGet s (Key.auctionStatus n d) with
  | none => ReadOutcome.raisesNameError
  | some _ =>
      ReadOutcome.ok (kvGet s (Key.auctionWinner n d), kvGet s (Key.auctionHighest n d))

/-- `submit_bid` (source lines 168-205), in source order: not-found check,
closed check, `bid.value <= float(str(tr[highest_bid_key]))` check,
`bid.bidder.name == tr[winning_bidder_key]` check, then the writes.  A read
that the source re-parses with `float`/`int` and that is absent or
non-numeric raises in Python; this is `none`.  Note the bidder's counter is
read only after the auction-side writes, as in the source. -/
def submit_bid (s : Store) (b : BidReq) : Option (Outcome × Store) :=
  match kvGet s (Key.auctionStatus b.aname b.adesc) with
  | none => some (Outcome.notFound, s)
  | some st =>
    if st = Val.str "CLOSED" then some (Outcome.closed, s)
    else
      match kvGet s (Key.auctionHighest b.aname b.adesc) with
      | some (Val.num h) =>
        if b.amount ≤ h then some (Outcome.tooLow, s)
        else
          if kvGet s (Key.auctionWinner b.aname b.adesc) = some (Val.str b.bidder) then
            some (Outcome.alreadyWinning, s)
          else
            match kvGet s (Key.auctionNumBids b.aname b.adesc) with
            | some (Val.int c) =>
              let s4 : Store :=
                kvSet (kvSet (kvSet (kvSet s
                  (Key.auctionHighest b.aname b.adesc) (Val.num b.amount))
                  (Key.auctionWinner b.aname b.adesc) (Val.str b.bidder))
                  (Key.auctionNumBids b.aname b.adesc) (Val.int (c + 1)))
                  (Key.bidAuction b.aname b.adesc (c + 1))
                  (Val.bidRepr b.bidder b.aname b.adesc b.amount)
              match kvGet s4 (Key.bidderNumBids b.bidder) with
              | some (Val.int bc) =>
                some (Outcome.accepted,
                  kvSet (kvSet s4
                    (Key.bidderNumBids b.bidder) (Val.int (bc + 1)))
                    (Key.bidBidder b.bidder (bc + 1))
                    (Val.bidRepr b.bidder b.aname b.adesc b.amount))
              | _ => none
            | _ => none
      | _ => none

/-- The six writes a successful `submit_bid` performs (source lines 190-205),
starting from the snapshot `s`, where `c` and `bc` are the auction's and the
bidder's previous counters. -/
def submitWrites (s : Store) (b : BidReq) (c bc : Nat) : Store :=
  kvSet (kvSet (kvSet (kvSet (kvSet (kvSet s
    (Key.auctionHighest b.aname b.adesc) (Val.num b.amount))
    (Key.auctionWinner b.aname b.adesc) (Val.str b.bidder))
    (Key.auctionNumBids b.aname b.adesc) (Val.int (c + 1)))
    (Key.bidAuction b.aname b.adesc (c + 1))
    (Val.bidRepr b.bidder b.aname b.adesc b.amount))
    (Key.bidderNumBids b.bidder) (Val.int (bc + 1)))
    (Key.bidBidder b.bidder (bc + 1))
    (Val.bidRepr b.bidder b.aname b.adesc b.amount)

/-- The console lines a `submit_bid` transaction body prints. -/
inductive Msg
  | printAuctionMissing (bidder aname : Str)
  | printAuctionClosed (bidder aname : Str)
  | printBidTooLow (bidder aname : Str) (amount : ℚ)
  | printAlreadyHighest (bidder aname : Str)
  | printNewHighestBid (bidder aname : Str) (amount : ℚ)
deriving DecidableEq

/-- The console output of one execution of the `submit_bid` body, mirroring
the source's branch structure.  The success line (source line 196) is printed
before the bidder counter is parsed, so it is emitted even if that later
parse raises. -/
def submit_bid_output (s : Store) (b : BidReq) : List Msg :=
  match kvGet s (Key.auctionStatus b.aname b.adesc) with
  | none => [Msg.printAuctionMissing b.bidder b.aname]
  | some st =>
    if st = Val.str "CLOSED" then [Msg.printAuctionClosed b.bidder b.aname]
    else
      match kvGet s (Key.auctionHighest b.aname b.adesc) with
      | some (Val.num h) =>
        if b.amount ≤ h then [Msg.printBidTooLow b.bidder b.aname b.amount]
        else
          if kvGet s (Key.auctionWinner b.aname b.adesc) = some (Val.str b.bidder) then
            [Msg.printAlreadyHighest b.bidder b.aname]
          else
            match kvGet s (Key.auctionNumBids b.aname b.adesc) with
            | some (Val.int _) => [Msg.printNewHighestBid b.bidder b.aname b.amount]
            | _ => []
      | _ => []

/-- Insert an indexed log entry keeping the index order ascending. -/
def insertByIdx (p : Nat × Val) : List (Nat × Val) → List (Nat × Val)
  | [] => [p]
  | q :: t => if p.1 ≤ q.1 then p :: q :: t else q :: insertByIdx p t

/-- Sort indexed log entries by index ascending.  For a fixed scope the
range scan of the source returns keys in byte order, and the tuple-layer int
encoding of the sequence number is ordered like the number itself, so the
scan order is the ascending sequence-number order. -/
def sortByIdx (l : List (Nat × Val)) : List (Nat × Val) := l.foldr insertByIdx []

/-- `bids_for_auction` (source lines 214-219): range scan over
`bids_ss[auction_key]`. -/
def bids_for_auction (s : Store) (n d : Str) : List (Nat × Val) :=
  sortByIdx (s.filterMap (fun p =>
    match p.1 with
    | Key.bidAuction n' d' i => if n' = n ∧ d' = d then some (i, p.2) else none
    | _ => none))

/-- `bids_for_bidder` (source lines 207-212): range scan over
`bids_ss[bidder_key]`. -/
def bids_for_bidder (s : Store) (n : Str) : List (Nat × Val) :=
  sortByIdx (s.filterMap (fun p =>
    match p.1 with
    | Key.bidBidder n' i => if n' = n then some (i, p.2) else none
    | _ => none))

/-- The mutating operations of the engine, for reasoning about operation
sequences. -/
inductive Op
  | createAuction (n d : Str)
  | closeAuction (n d : Str)
  | registerBidder (n : Str)
  | placeBid (b : BidReq)
deriving DecidableEq

/-- Run one operation for its store effect.  A Python exception inside
`submit_bid` aborts the transaction without committing, so the store is
unchanged in the `none` case. -/
def applyOp (s : Store) : Op → Store
  | Op.createAuction n d => (add_auction s n d).2
  | Op.closeAuction n d => (close_auction s n d).2
  | Op.registerBidder n => (add_bidder s n).2
  | Op.placeBid b =>
    match submit_bid s b with
    | some (_, s') => s'
    | none => s

/-- Run a sequence of operations. -/
def applyOps (s : Store) (ops : List Op) : Store := ops.foldl applyOp s

/-- Stores reachable from the empty store by engine operations. -/
def Reachable (s : Store) : Prop := ∃ ops : List Op, s = applyOps [] ops

/-- The per-auction record/log invariant: the four fields are present and
well-typed, the bid log occupies exactly indices `1..c`, every entry is a
positive bid on this auction, consecutive entries strictly increase in
amount and change bidder, and the record fields mirror the last entry. -/
structure AuctionInvAt (s : Store) (n d : Str) (h : ℚ) (w : Str) (c : Nat) : Prop where
  highest : kvGet s (Key.auctionHighest n d) = some (Val.num h)
  winner : kvGet s (Key.auctionWinner n d) = some (Val.str w)
  count : kvGet s (Key.auctionNumBids n d) = some (Val.int c)
  dom : ∀ i, (kvGet s (Key.bidAuction n d i)).isSome ↔ (1 ≤ i ∧ i ≤ c)
  typed : ∀ i, 1 ≤ i → i ≤ c →
    ∃ bn q, kvGet s (Key.bidAuction n d i) = some (Val.bidRepr bn n d q) ∧ 0 < q
  chain : ∀ i bn1 q1 bn2 q2,
    kvGet s (Key.bidAuction n d i) = some (Val.bidRepr bn1 n d q1) →
    kvGet s (Key.bidAuction n d (i + 1)) = some (Val.bidRepr bn2 n d q2) →
    q1 < q2 ∧ bn1 ≠ bn2
  base : c = 0 → h = 0 ∧ w = ""
  last : 1 ≤ c → kvGet s (Key.bidAuction n d c) = some (Val.bidRepr w n d h)

/-- The invariant for one auction identifier: absent auctions have no log
entries; present auctions satisfy `AuctionInvAt`. -/
def AuctionInv (s : Store) (n d : Str) : Prop :=
  match kvGet s (Key.auctionStatus n d) with
  | none => ∀ i, kvGet s (Key.bidAuction n d i) = none
  | some _ => ∃ h w c, AuctionInvAt s n d h w c

/-- The store-wide invariant. -/
def Inv (s : Store) : Prop := ∀ n d, AuctionInv s n d

/-- The end-to-end scenario of §8 of the spec: auction `("pen","blue pen")`,
bidders `"A"` and `"B"`. -/
def bidA5 : BidReq := ⟨"A", "pen", "blue pen", 5⟩

def bidB5 : BidReq := ⟨"B", "pen", "blue pen", 5⟩

def bidB7 : BidReq := ⟨"B", "pen", "blue pen", 7⟩

/-- Store after creating the auction and registering both bidders. -/
def penS3 : Store :=
  applyOps [] [Op.createAuction "pen" "blue pen", Op.registerBidder "A", Op.registerBidder "B"]

/-- Store after `A` bids 5.0. -/
def penS4 : Store := applyOp penS3 (Op.placeBid bidA5)

/-- Store after `B`'s rejected 5.0 bid and accepted 7.0 bid. -/
def penS5 : Store := applyOp (applyOp penS4 (Op.placeBid bidB5)) (Op.placeBid bidB7)

/-! ### Store lemmas -/

theorem kvGet_kvSet (s : Store) (k : Key) (v : Val) (k' : Key) :
    kvGet (kvSet s k v) k' = if k = k' then some v else kvGet s k' := by
  induction s with
  | nil => simp [kvGet, kvSet]
  | cons p t ih =>
    obtain ⟨k0, v0⟩ := p
    by_cases h0 : k0 = k
    · subst h0
      by_cases h1 : k0 = k'
      · subst h1; simp [kvGet, kvSet]
      · simp [kvGet, kvSet, h1]
    · by_cases h1 : k0 = k'
      · subst h1
        have hne : ¬ k = k0 := fun hh => h0 hh.symm
        simp [kvGet, kvSet, h0, hne]
      · simp [kvGet, kvSet, h0, h1, ih]

/-! ### Codec round-trip lemmas -/

theorem escape_zero (t : Bytes) : escape (0 :: t) = 0 :: 255 :: escape t := rfl

theorem escape_pos (b : Nat) (t : Bytes) (h : b ≠ 0) : escape (b :: t) = b :: escape t := by
  match b with
  | 0 => exact absurd rfl h
  | Nat.succ m => rfl

theorem unescape_escape (p : Bytes) (r : Bytes) (hr : r.head? ≠ some 255) :
    unescape (escape p ++ 0 :: r) = some (p, r) := by
  induction p with
  | nil =>
    cases r with
    | nil => rfl
    | cons a t =>
      have ha : a ≠ 255 := by simpa using hr
      simp [escape, unescape, ha]
  | cons b t ih =>
    by_cases hb : b = 0
    · subst hb
      rw [escape_zero]
      simp [unescape, ih]
    · rw [escape_pos b t hb]
      have hred : unescape (b :: (escape t ++ 0 :: r))
          = (unescape (escape t ++ 0 :: r)).map (fun pr => (b :: pr.1, pr.2)) := by
        rw [unescape.eq_def]
        simp [hb]
      simp only [List.cons_append]
      rw [hred, ih]
      rfl

theorem beBytes_zero : beBytes 0 = [] := by rw [beBytes]; simp

theorem beBytes_pos (n : Nat) (h : n ≠ 0) : beBytes n = beBytes (n / 256) ++ [n % 256] := by
  rw [beBytes]; simp [h]

theorem fromBE_append (l : Bytes) (y : Nat) : fromBE (l ++ [y]) = 256 * fromBE l + y := by
  unfold fromBE
  rw [List.foldl_append]
  rfl

theorem fromBE_beBytes (n : Nat) : fromBE (beBytes n) = n := by
  induction n using Nat.strong_induction_on with
  | _ n ih =>
    by_cases h : n = 0
    · subst h; rw [beBytes_zero]; rfl
    · rw [beBytes_pos n h, fromBE_append,
        ih (n / 256) (Nat.div_lt_self (Nat.pos_of_ne_zero h) (by norm_num))]
      omega

theorem beBytes_length_le (k : Nat) (n : Nat) (h : n < 256 ^ k) : (beBytes n).length ≤ k := by
  induction k generalizing n with
  | zero =>
    have h0 : n = 0 := by simpa using h
    subst h0; simp [beBytes_zero]
  | succ k ih =>
    by_cases h0 : n = 0
    · subst h0; simp [beBytes_zero]
    · rw [beBytes_pos n h0]
      simp only [List.length_append, List.length_cons, List.length_nil]
      have hdiv : n / 256 < 256 ^ k := by
        rw [Nat.div_lt_iff_lt_mul (by norm_num : 0 < 256)]
        calc n < 256 ^ (k + 1) := h
        _ = 256 ^ k * 256 := by ring
      have := ih (n / 256) hdiv
      omega

theorem encodeElem_ne_nil (e : Elem) : encodeElem e ≠ [] := by
  cases e <;> simp [encodeElem]

theorem beBytes_length_le_eight (n : Nat) (h : n < 2 ^ 64) : (beBytes n).length ≤ 8 :=
  beBytes_length_le 8 n (by calc n < 2 ^ 64 := h
                              _ = 256 ^ 8 := by norm_num)

theorem encodeElem_head_ne_255 (e : Elem) (he : elemWF e = true) (b : Nat)
    (hb : (encodeElem e).head? = some b) : b ≠ 255 := by
  cases e with
  | str p => simp [encodeElem] at hb; omega
  | bytes p => simp [encodeElem] at hb; omega
  | int n =>
    simp [elemWF] at he
    have := beBytes_length_le_eight n he
    simp [encodeElem] at hb
    omega

theorem packTuple_nil : packTuple [] = [] := rfl

theorem packTuple_cons (e : Elem) (es : List Elem) :
    packTuple (e :: es) = encodeElem e ++ packTuple es := by
  simp [packTuple]

theorem packTuple_head_ne_255 (es : List Elem) (he : ∀ e ∈ es, elemWF e = true) :
    (packTuple es).head? ≠ some 255 := by
  cases es with
  | nil => simp [packTuple_nil]
  | cons e t =>
    rw [packTuple_cons]
    cases hc : encodeElem e with
    | nil => exact absurd hc (encodeElem_ne_nil e)
    | cons b bt =>
      have hb := encodeElem_head_ne_255 e (he e (by simp)) b (by rw [hc]; rfl)
      simpa using hb

theorem decodeElem_encode (e : Elem) (r : Bytes) (he : elemWF e = true)
    (hr : r.head? ≠ some 255) : decodeElem (encodeElem e ++ r) = some (e, r) := by
  cases e with
  | str p =>
    have hsh : encodeElem (Elem.str p) ++ r = 2 :: (escape p ++ (0 :: r)) := by
      simp [encodeElem]
    rw [hsh]
    simp [decodeElem, unescape_escape p r hr]
  | bytes p =>
    have hsh : encodeElem (Elem.bytes p) ++ r = 1 :: (escape p ++ (0 :: r)) := by
      simp [encodeElem]
    rw [hsh]
    simp [decodeElem, unescape_escape p r hr]
  | int n =>
    simp only [elemWF, decide_eq_true_eq] at he
    have hlen : (beBytes n).length ≤ 8 := beBytes_length_le_eight n he
    have hsh : encodeElem (Elem.int n) ++ r
        = (20 + (beBytes n).length) :: (beBytes n ++ r) := by
      simp [encodeElem]
    rw [hsh]
    simp only [decodeElem]
    rw [if_neg (by omega), if_neg (by omega), if_pos (by constructor <;> omega)]
    have hk : 20 + (beBytes n).length - 20 = (beBytes n).length := by omega
    rw [hk, if_pos (by simp)]
    rw [List.take_left, List.drop_left, fromBE_beBytes]

theorem decodeTupleAux_pack (es : List Elem) (fuel : Nat) (hf : es.length ≤ fuel)
    (he : ∀ e ∈ es, elemWF e = true) : decodeTupleAux fuel (packTuple es) = some es := by
  induction es generalizing fuel with
  | nil => rw [packTuple_nil]; cases fuel <;> rfl
  | cons e t ih =>
    cases fuel with
    | zero => simp at hf
    | succ f =>
      rw [packTuple_cons]
      have hdec : decodeElem (encodeElem e ++ packTuple t) = some (e, packTuple t) :=
        decodeElem_encode e _ (he e (by simp))
          (packTuple_head_ne_255 t (fun x hx => he x (by simp [hx])))
      cases hc : encodeElem e with
      | nil => exact absurd hc (encodeElem_ne_nil e)
      | cons b bt =>
        rw [hc] at hdec
        have hih := ih f (by simp only [List.length_cons] at hf; omega)
          (fun x hx => he x (by simp [hx]))
        simp only [List.cons_append]
        rw [decodeTupleAux]
        simp only [List.cons_append] at hdec
        rw [hdec]
        simp [hih]

theorem packTuple_inj {es1 es2 : List Elem} (h1 : ∀ e ∈ es1, elemWF e = true)
    (h2 : ∀ e ∈ es2, elemWF e = true) (h : packTuple es1 = packTuple es2) : es1 = es2 := by
  have d1 := decodeTupleAux_pack es1 (es1.length + es2.length) (by omega) h1
  have d2 := decodeTupleAux_pack es2 (es1.length + es2.length) (by omega) h2
  rw [h, d2] at d1
  exact (Option.some.inj d1).symm

/-! ### Key encoding injectivity -/

theorem char_toNat_injective : Function.Injective Char.toNat :=
  fun _ _ h => Char.eq_of_val_eq (UInt32.ext h)

theorem strBytes_inj {a b : Str} (h : strBytes a = strBytes b) : a = b := by
  have hd : a.data = b.data := List.map_injective_iff.mpr char_toNat_injective h
  calc a = String.mk a.data := rfl
  _ = String.mk b.data := by rw [hd]
  _ = b := rfl

theorem strOfBytes_strBytes (s : Str) : strOfBytes (strBytes s) = s := by
  cases s with
  | mk d => simp [strOfBytes, strBytes, List.map_map, Function.comp_def, Char.ofNat_toNat]

theorem singles_charElems (cs : List Char) :
    singles (cs.map (fun ch => Elem.str [ch.toNat])) = some cs := by
  induction cs with
  | nil => rfl
  | cons ch t ih => simp [singles, ih, Char.ofNat_toNat]

theorem charElems_eq (s : Str) :
    charElems s = s.data.map (fun ch => Elem.str [ch.toNat]) := by
  simp [charElems, strBytes, List.map_map]

theorem charElems_inj {a b : Str} (h : charElems a = charElems b) : a = b := by
  rw [charElems_eq, charElems_eq] at h
  have h1 := singles_charElems a.data
  rw [h, singles_charElems b.data] at h1
  have hd : b.data = a.data := Option.some.inj h1
  calc a = String.mk a.data := rfl
  _ = String.mk b.data := by rw [hd]
  _ = b := rfl

theorem singleton_ne_numbids (c : Nat) : [c] ≠ strBytes "num_bids" := by
  intro h
  have h8 : (strBytes "num_bids").length = 8 := rfl
  rw [← h] at h8
  simp at h8

theorem bidderIdBytes_wf (n : Str) :
    ∀ e ∈ strElem "bidders" :: charElems n, elemWF e = true := by
  intro e he
  rcases List.mem_cons.mp he with h | h
  · subst h; rfl
  · rw [charElems] at h
    obtain ⟨c, -, rfl⟩ := List.mem_map.mp h
    rfl

theorem keyElems_wf (k : Key) (hk : keyWF k = true) : ∀ e ∈ keyElems k, elemWF e = true := by
  cases k with
  | auctionStatus n d => intro e he; fin_cases he <;> rfl
  | auctionHighest n d => intro e he; fin_cases he <;> rfl
  | auctionWinner n d => intro e he; fin_cases he <;> rfl
  | auctionNumBids n d => intro e he; fin_cases he <;> rfl
  | bidderRecord n => exact bidderIdBytes_wf n
  | bidderNumBids n => intro e he; fin_cases he <;> rfl
  | bidAuction n d i =>
    intro e he; fin_cases he
    · rfl
    · rfl
    · simpa [elemWF, keyWF] using hk
  | bidBidder n i =>
    intro e he; fin_cases he
    · rfl
    · rfl
    · simpa [elemWF, keyWF] using hk

theorem packTuple_length_ge (es : List Elem) : es.length ≤ (packTuple es).length := by
  induction es with
  | nil => simp [packTuple_nil]
  | cons e t ih =>
    rw [packTuple_cons]
    have h1 : 1 ≤ (encodeElem e).length := by
      cases hc : encodeElem e with
      | nil => exact absurd hc (encodeElem_ne_nil e)
      | cons b bt => simp
    simp only [List.length_append, List.length_cons]
    omega

theorem decodeTupleAux_self (es : List Elem) (he : ∀ e ∈ es, elemWF e = true) :
    decodeTupleAux (packTuple es).length (packTuple es) = some es :=
  decodeTupleAux_pack es (packTuple es).length (packTuple_length_ge es) he

theorem elemsKey_keyElems (k : Key) : elemsKey (keyElems k) = some k := by
  have hba : strBytes "bidders" ≠ strBytes "auctions" := by decide
  have hsa : strBytes "bids" ≠ strBytes "auctions" := by decide
  have hsb : strBytes "bids" ≠ strBytes "bidders" := by decide
  have hwh : strBytes "winning_bidder" ≠ strBytes "highest_bid" := by decide
  have hnh : strBytes "num_bids" ≠ strBytes "highest_bid" := by decide
  have hnw : strBytes "num_bids" ≠ strBytes "winning_bidder" := by decide
  cases k with
  | auctionStatus n d =>
    simp [keyElems, elemsKey, strElem, strOfBytes_strBytes]
  | auctionHighest n d =>
    simp [keyElems, elemsKey, strElem, strOfBytes_strBytes]
  | auctionWinner n d =>
    simp [keyElems, elemsKey, strElem, strOfBytes_strBytes, hwh]
  | auctionNumBids n d =>
    simp [keyElems, elemsKey, strElem, strOfBytes_strBytes, hnh, hnw]
  | bidderRecord n =>
    have hmk : String.mk n.data = n := rfl
    cases hd : n.data with
    | nil =>
      rw [keyElems, charElems_eq, hd]
      simp [elemsKey, strElem, hba, singles]
      rw [← hmk, hd]
    | cons c1 t1 =>
      cases t1 with
      | nil =>
        rw [keyElems, charElems_eq, hd]
        simp [elemsKey, strElem, hba, singles, Char.ofNat_toNat]
        rw [← hmk, hd]
      | cons c2 t2 =>
        cases t2 with
        | nil =>
          rw [keyElems, charElems_eq, hd]
          simp [elemsKey, strElem, hba, singles, Char.ofNat_toNat,
            singleton_ne_numbids c2.toNat]
          rw [← hmk, hd]
        | cons c3 t3 =>
          have hs : singles (Elem.str [c1.toNat] :: Elem.str [c2.toNat] ::
              Elem.str [c3.toNat] :: t3.map (fun ch => Elem.str [ch.toNat]))
              = some (c1 :: c2 :: c3 :: t3) := by
            simpa using singles_charElems (c1 :: c2 :: c3 :: t3)
          rw [keyElems, charElems_eq, hd]
          simp [elemsKey, strElem, hba, hs]
          rw [← hmk, hd]
  | bidderNumBids n =>
    simp [keyElems, elemsKey, strElem, hba, strOfBytes_strBytes]
  | bidAuction n d i =>
    have hdec : decodeTupleAux (auctionIdBytes n d).length (auctionIdBytes n d)
        = some [strElem "auctions", strElem n, strElem d] := by
      apply decodeTupleAux_self
      intro e he; fin_cases he <;> rfl
    simp [keyElems, elemsKey, strElem, hsa, hsb, hdec, strOfBytes_strBytes]
  | bidBidder n i =>
    have hdec : decodeTupleAux (bidderIdBytes n).length (bidderIdBytes n)
        = some (strElem "bidders" :: charElems n) := by
      apply decodeTupleAux_self
      exact bidderIdBytes_wf n
    have hsing : (singles (charElems n)) = some n.data := by
      rw [charElems_eq]; exact singles_charElems n.data
    simp [keyElems, elemsKey, strElem, hsa, hsb, hba, hdec, hsing]

/-- Claim C6 (amended, kept part): the key encoding is injective — no two
distinct logical keys (auction record keys, auction field keys, bidder
record keys, bidder counter keys, or bid-log entry keys for either scope)
map to the same encoded byte key, given that sequence numbers fit in the
tuple layer's 8 magnitude bytes. -/
theorem C6_key_encoding_injective (k1 k2 : Key) (w1 : keyWF k1 = true)
    (w2 : keyWF k2 = true) (h : encodeKey k1 = encodeKey k2) : k1 = k2 := by
  have he : keyElems k1 = keyElems k2 :=
    packTuple_inj (keyElems_wf k1 w1) (keyElems_wf k2 w2) h
  have r1 := elemsKey_keyElems k1
  rw [he, elemsKey_keyElems k2] at r1
  exact (Option.some.inj r1).symm

/-- Witness for `C6_key_encoding_injective` at concrete keys. -/
theorem C6_key_encoding_injective_witness :
    keyWF (Key.bidAuction "pen" "blue pen" 1) = true ∧
      Key.bidAuction "pen" "blue pen" 1 = Key.bidAuction "pen" "blue pen" 1 :=
  ⟨by decide,
    C6_key_encoding_injective (Key.bidAuction "pen" "blue pen" 1)
      (Key.bidAuction "pen" "blue pen" 1) (by decide) (by decide) rfl⟩

/-- Counterexample to claim C6 as stated: the encoded record key of bidder
`"A"` is a strict byte-prefix of the encoded record key of bidder `"AB"`
(because `Bidder.id_tuple` packs the tuple of the name's characters), so the
byte-prefix grouping bidder `"A"`'s fields contains a key belonging to
bidder `"AB"`, and a ranged read over it does not reconstruct exactly
bidder `"A"`'s record. -/
theorem C6_counterexample :
    encodeKey (Key.bidderRecord "AB") = encodeKey (Key.bidderRecord "A") ++ [2, 66, 0] ∧
      ("A" : Str) ≠ "AB" := by
  constructor
  · rfl
  · decide

/-! ### Characterization of submit_bid -/

theorem submit_bid_spec (s : Store) (b : BidReq) (r : Outcome) (s' : Store)
    (h : submit_bid s b = some (r, s')) :
    (r ≠ Outcome.accepted ∧ s' = s) ∨
    (r = Outcome.accepted ∧ ∃ st h0 c bc,
      kvGet s (Key.auctionStatus b.aname b.adesc) = some st ∧
      st ≠ Val.str "CLOSED" ∧
      kvGet s (Key.auctionHighest b.aname b.adesc) = some (Val.num h0) ∧
      h0 < b.amount ∧
      kvGet s (Key.auctionWinner b.aname b.adesc) ≠ some (Val.str b.bidder) ∧
      kvGet s (Key.auctionNumBids b.aname b.adesc) = some (Val.int c) ∧
      kvGet s (Key.bidderNumBids b.bidder) = some (Val.int bc) ∧
      s' = submitWrites s b c bc) := by
  unfold submit_bid at h
  split at h
  · rw [Option.some.injEq, Prod.mk.injEq] at h
    obtain ⟨hr, hs⟩ := h
    subst hr
    exact Or.inl ⟨by decide, hs.symm⟩
  next st hst =>
    split at h
    · rw [Option.some.injEq, Prod.mk.injEq] at h
      obtain ⟨hr, hs⟩ := h
      subst hr
      exact Or.inl ⟨by decide, hs.symm⟩
    next hcl =>
      split at h
      next h0 hhi =>
        split at h
        next hle =>
          rw [Option.some.injEq, Prod.mk.injEq] at h
          obtain ⟨hr, hs⟩ := h
          subst hr
          exact Or.inl ⟨by decide, hs.symm⟩
        next hgt =>
          split at h
          next hwin =>
            rw [Option.some.injEq, Prod.mk.injEq] at h
            obtain ⟨hr, hs⟩ := h
            subst hr
            exact Or.inl ⟨by decide, hs.symm⟩
          next hnw =>
            split at h
            next c hc =>
              have hs4 : kvGet (kvSet (kvSet (kvSet (kvSet s
                  (Key.auctionHighest b.aname b.adesc) (Val.num b.amount))
                  (Key.auctionWinner b.aname b.adesc) (Val.str b.bidder))
                  (Key.auctionNumBids b.aname b.adesc) (Val.int (c + 1)))
                  (Key.bidAuction b.aname b.adesc (c + 1))
                  (Val.bidRepr b.bidder b.aname b.adesc b.amount))
                  (Key.bidderNumBids b.bidder)
                  = kvGet s (Key.bidderNumBids b.bidder) := by
                simp [kvGet_kvSet]
              dsimp only at h
              rw [hs4] at h
              split at h
              next bc hbc =>
                rw [Option.some.injEq, Prod.mk.injEq] at h
                obtain ⟨hr, hs⟩ := h
                subst hr
                exact Or.inr ⟨rfl, st, h0, c, bc, hst, hcl, hhi, not_le.mp hgt,
                  hnw, hc, hbc, hs.symm⟩
              next => exact absurd h (by simp)
            next => exact absurd h (by simp)
      next => exact absurd h (by simp)

/-! ### Claims C1 - C5 and C7 -/

/-- Claim C1: for every bid whose auction exists and is OPEN, whose amount is
strictly greater than the current highestBid, and whose bidder (a registered
bidder, so the bidder's counter exists) is not the current winningBidderName,
`submit_bid` succeeds and in the one resulting store sets highestBid to the
bid amount, sets winningBidderName to the bidder's name, increments the
auction's bidCount and appends the bid to the auction's bid log at the new
count, increments the bidder's bidCount and appends the bid to the bidder's
bid log at the new count, and changes nothing else. -/
theorem C1_submit_bid_success (s : Store) (b : BidReq) (hq : ℚ) (w : Str) (c bc : Nat)
    (hst : kvGet s (Key.auctionStatus b.aname b.adesc) = some (Val.str "OPEN"))
    (hhi : kvGet s (Key.auctionHighest b.aname b.adesc) = some (Val.num hq))
    (hv : hq < b.amount)
    (hwin : kvGet s (Key.auctionWinner b.aname b.adesc) = some (Val.str w))
    (hw : w ≠ b.bidder)
    (hc : kvGet s (Key.auctionNumBids b.aname b.adesc) = some (Val.int c))
    (hbc : kvGet s (Key.bidderNumBids b.bidder) = some (Val.int bc)) :
    ∃ s', submit_bid s b = some (Outcome.accepted, s') ∧
      kvGet s' (Key.auctionHighest b.aname b.adesc) = some (Val.num b.amount) ∧
      kvGet s' (Key.auctionWinner b.aname b.adesc) = some (Val.str b.bidder) ∧
      kvGet s' (Key.auctionNumBids b.aname b.adesc) = some (Val.int (c + 1)) ∧
      kvGet s' (Key.bidAuction b.aname b.adesc (c + 1))
        = some (Val.bidRepr b.bidder b.aname b.adesc b.amount) ∧
      kvGet s' (Key.bidderNumBids b.bidder) = some (Val.int (bc + 1)) ∧
      kvGet s' (Key.bidBidder b.bidder (bc + 1))
        = some (Val.bidRepr b.bidder b.aname b.adesc b.amount) ∧
      ∀ k, k ≠ Key.auctionHighest b.aname b.adesc →
        k ≠ Key.auctionWinner b.aname b.adesc →
        k ≠ Key.auctionNumBids b.aname b.adesc →
        k ≠ Key.bidAuction b.aname b.adesc (c + 1) →
        k ≠ Key.bidderNumBids b.bidder →
        k ≠ Key.bidBidder b.bidder (bc + 1) →
        kvGet s' k = kvGet s k := by
  have hne : (Val.str "OPEN") ≠ (Val.str "CLOSED") := by decide
  have hnle : ¬ b.amount ≤ hq := not_le.mpr hv
  have hnwin : ¬ kvGet s (Key.auctionWinner b.aname b.adesc) = some (Val.str b.bidder) := by
    rw [hwin]
    simp
    intro hcon
    exact hw hcon
  refine ⟨kvSet (kvSet (kvSet (kvSet (kvSet (kvSet s
      (Key.auctionHighest b.aname b.adesc) (Val.num b.amount))
      (Key.auctionWinner b.aname b.adesc) (Val.str b.bidder))
      (Key.auctionNumBids b.aname b.adesc) (Val.int (c + 1)))
      (Key.bidAuction b.aname b.adesc (c + 1))
      (Val.bidRepr b.bidder b.aname b.adesc b.amount))
      (Key.bidderNumBids b.bidder) (Val.int (bc + 1)))
      (Key.bidBidder b.bidder (bc + 1))
      (Val.bidRepr b.bidder b.aname b.adesc b.amount),
    ?_, ?_, ?_, ?_, ?_, ?_, ?_, ?_⟩
  · unfold submit_bid
    rw [hst]
    dsimp only
    rw [if_neg hne, hhi]
    dsimp only
    rw [if_neg hnle, if_neg hnwin, hc]
    dsimp only
    have hs4 : kvGet (kvSet (kvSet (kvSet (kvSet s
        (Key.auctionHighest b.aname b.adesc) (Val.num b.amount))
        (Key.auctionWinner b.aname b.adesc) (Val.str b.bidder))
        (Key.auctionNumBids b.aname b.adesc) (Val.int (c + 1)))
        (Key.bidAuction b.aname b.adesc (c + 1))
        (Val.bidRepr b.bidder b.aname b.adesc b.amount))
        (Key.bidderNumBids b.bidder)
        = kvGet s (Key.bidderNumBids b.bidder) := by
      simp [kvGet_kvSet]
    rw [hs4, hbc]
  · simp [kvGet_kvSet]
  · simp [kvGet_kvSet]
  · simp [kvGet_kvSet]
  · simp [kvGet_kvSet]
  · simp [kvGet_kvSet]
  · simp [kvGet_kvSet]
  · intro k hk1 hk2 hk3 hk4 hk5 hk6
    simp only [kvGet_kvSet]
    rw [if_neg (fun hh => hk6 hh.symm), if_neg (fun hh => hk5 hh.symm),
      if_neg (fun hh => hk4 hh.symm), if_neg (fun hh => hk3 hh.symm),
      if_neg (fun hh => hk2 hh.symm), if_neg (fun hh => hk1 hh.symm)]

/-- Witness for `C1_submit_bid_success`: bidder `"A"` bids 5.0 on the freshly
created auction. -/
theorem C1_submit_bid_success_witness :
    kvGet penS3 (Key.auctionStatus "pen" "blue pen") = some (Val.str "OPEN") ∧
      ∃ s', submit_bid penS3 bidA5 = some (Outcome.accepted, s') ∧
        kvGet s' (Key.auctionHighest "pen" "blue pen") = some (Val.num 5) ∧
        kvGet s' (Key.auctionWinner "pen" "blue pen") = some (Val.str "A") ∧
        kvGet s' (Key.auctionNumBids "pen" "blue pen") = some (Val.int 1) ∧
        kvGet s' (Key.bidAuction "pen" "blue pen" 1)
          = some (Val.bidRepr "A" "pen" "blue pen" 5) ∧
        kvGet s' (Key.bidderNumBids "A") = some (Val.int 1) ∧
        kvGet s' (Key.bidBidder "A" 1) = some (Val.bidRepr "A" "pen" "blue pen" 5) ∧
        ∀ k, k ≠ Key.auctionHighest "pen" "blue pen" →
          k ≠ Key.auctionWinner "pen" "blue pen" →
          k ≠ Key.auctionNumBids "pen" "blue pen" →
          k ≠ Key.bidAuction "pen" "blue pen" 1 →
          k ≠ Key.bidderNumBids "A" →
          k ≠ Key.bidBidder "A" 1 →
          kvGet s' k = kvGet penS3 k :=
  ⟨by decide,
    C1_submit_bid_success penS3 bidA5 0 "" 0 0 (by decide) (by decide)
      (by norm_num [bidA5]) (by decide) (by decide) (by decide) (by decide)⟩

/-- Claim C2: for every existing OPEN auction and every bid with amount at
most the auction's current highestBid, `submit_bid` rejects the bid as too
low and returns the store unchanged (so auction state, bidder state and both
bid logs are untouched). -/
theorem C2_bid_too_low_rejected (s : Store) (b : BidReq) (hq : ℚ)
    (hst : kvGet s (Key.auctionStatus b.aname b.adesc) = some (Val.str "OPEN"))
    (hhi : kvGet s (Key.auctionHighest b.aname b.adesc) = some (Val.num hq))
    (hle : b.amount ≤ hq) :
    submit_bid s b = some (Outcome.tooLow, s) := by
  have hne : (Val.str "OPEN") ≠ (Val.str "CLOSED") := by decide
  unfold submit_bid
  rw [hst]
  dsimp only
  rw [if_neg hne, hhi]
  dsimp only
  rw [if_pos hle]

/-- Witness for `C2_bid_too_low_rejected`: bidder `"B"` bids 5.0 while the
highest bid is already 5.0. -/
theorem C2_bid_too_low_rejected_witness :
    kvGet penS4 (Key.auctionHighest "pen" "blue pen") = some (Val.num 5) ∧
      submit_bid penS4 bidB5 = some (Outcome.tooLow, penS4) :=
  ⟨by decide,
    C2_bid_too_low_rejected penS4 bidB5 5 (by decide) (by decide) (by norm_num [bidB5])⟩

/-- Claim C3: for every existing OPEN auction, a bid by the bidder whose name
equals the current winningBidderName is rejected — never accepted — whatever
the amount, and the store is returned unchanged. -/
theorem C3_already_winning_rejected (s : Store) (b : BidReq) (hq : ℚ)
    (hst : kvGet s (Key.auctionStatus b.aname b.adesc) = some (Val.str "OPEN"))
    (hhi : kvGet s (Key.auctionHighest b.aname b.adesc) = some (Val.num hq))
    (hwin : kvGet s (Key.auctionWinner b.aname b.adesc) = some (Val.str b.bidder)) :
    ∃ r, submit_bid s b = some (r, s) ∧ r ≠ Outcome.accepted := by
  have hne : (Val.str "OPEN") ≠ (Val.str "CLOSED") := by decide
  by_cases hle : b.amount ≤ hq
  · refine ⟨Outcome.tooLow, ?_, by decide⟩
    unfold submit_bid
    rw [hst]
    dsimp only
    rw [if_neg hne, hhi]
    dsimp only
    rw [if_pos hle]
  · refine ⟨Outcome.alreadyWinning, ?_, by decide⟩
    unfold submit_bid
    rw [hst]
    dsimp only
    rw [if_neg hne, hhi]
    dsimp only
    rw [if_neg hle, if_pos hwin]

/-- Witness for `C3_already_winning_rejected`: bidder `"A"` is the current
winner and bids 9.0. -/
theorem C3_already_winning_rejected_witness :
    kvGet penS4 (Key.auctionWinner "pen" "blue pen") = some (Val.str "A") ∧
      ∃ r, submit_bid penS4 ⟨"A", "pen", "blue pen", 9⟩ = some (r, penS4) ∧
        r ≠ Outcome.accepted :=
  ⟨by decide,
    C3_already_winning_rejected penS4 ⟨"A", "pen", "blue pen", 9⟩ 5
      (by decide) (by decide) (by decide)⟩

/-- Claim C4: for every auction identifier absent from the store, the first
`add_auction` succeeds and writes status OPEN, highestBid 0, winningBidder
`""` and bidCount 0, and a second `add_auction` with the same identifier
fails as already existing and leaves the store exactly as after the first
call. -/
theorem C4_create_auction_twice (s : Store) (n d : Str)
    (habs : kvGet s (Key.auctionStatus n d) = none) :
    (add_auction s n d).1 = OpResult.ok ∧
    kvGet (add_auction s n d).2 (Key.auctionStatus n d) = some (Val.str "OPEN") ∧
    kvGet (add_auction s n d).2 (Key.auctionHighest n d) = some (Val.num 0) ∧
    kvGet (add_auction s n d).2 (Key.auctionWinner n d) = some (Val.str "") ∧
    kvGet (add_auction s n d).2 (Key.auctionNumBids n d) = some (Val.int 0) ∧
    add_auction (add_auction s n d).2 n d
      = (OpResult.alreadyExists, (add_auction s n d).2) := by
  have h2 : kvGet (add_auction s n d).2 (Key.auctionStatus n d) = some (Val.str "OPEN") := by
    simp [add_auction, habs, kvGet_kvSet]
  refine ⟨by simp [add_auction, habs], h2, ?_, ?_, ?_, ?_⟩
  · simp [add_auction, habs, kvGet_kvSet]
  · simp [add_auction, habs, kvGet_kvSet]
  · simp [add_auction, habs, kvGet_kvSet]
  · rw [add_auction, h2]
    simp

/-- Witness for `C4_create_auction_twice`: the auction `("pen","blue pen")`
on the empty store. -/
theorem C4_create_auction_twice_witness :
    kvGet ([] : Store) (Key.auctionStatus "pen" "blue pen") = none ∧
    (add_auction [] "pen" "blue pen").1 = OpResult.ok ∧
    kvGet (add_auction [] "pen" "blue pen").2 (Key.auctionStatus "pen" "blue pen")
      = some (Val.str "OPEN") ∧
    kvGet (add_auction [] "pen" "blue pen").2 (Key.auctionHighest "pen" "blue pen")
      = some (Val.num 0) ∧
    kvGet (add_auction [] "pen" "blue pen").2 (Key.auctionWinner "pen" "blue pen")
      = some (Val.str "") ∧
    kvGet (add_auction [] "pen" "blue pen").2 (Key.auctionNumBids "pen" "blue pen")
      = some (Val.int 0) ∧
    add_auction (add_auction [] "pen" "blue pen").2 "pen" "blue pen"
      = (OpResult.alreadyExists, (add_auction [] "pen" "blue pen").2) := by
  refine ⟨by decide, ?_⟩
  exact C4_create_auction_twice [] "pen" "blue pen" (by decide)

/-- Once an auction's status value is CLOSED, no engine operation changes it
back: `add_auction` refuses existing keys, `close_auction` rewrites CLOSED,
`submit_bid` never writes a status key, `add_bidder` touches bidder keys
only. -/
theorem submit_bid_status_frame (s : Store) (b : BidReq) (r : Outcome) (s' : Store)
    (h : submit_bid s b = some (r, s')) (n d : Str) :
    kvGet s' (Key.auctionStatus n d) = kvGet s (Key.auctionStatus n d) := by
  rcases submit_bid_spec s b r s' h with ⟨-, rfl⟩ |
    ⟨-, st, h0, c, bc, -, -, -, -, -, -, -, rfl⟩
  · rfl
  · simp [submitWrites, kvGet_kvSet]

theorem closed_persists (s : Store) (n d : Str)
    (h : kvGet s (Key.auctionStatus n d) = some (Val.str "CLOSED")) (op : Op) :
    kvGet (applyOp s op) (Key.auctionStatus n d) = some (Val.str "CLOSED") := by
  cases op with
  | createAuction n' d' =>
    by_cases hp : (kvGet s (Key.auctionStatus n' d')).isSome
    · simp [applyOp, add_auction, hp, h]
    · have hne : ¬ (Key.auctionStatus n' d' = Key.auctionStatus n d) := by
        intro he
        rw [he, h] at hp
        simp at hp
      simp [applyOp, add_auction, hp, kvGet_kvSet, hne, h]
  | closeAuction n' d' =>
    by_cases hp : (kvGet s (Key.auctionStatus n' d')).isSome
    · by_cases he : Key.auctionStatus n' d' = Key.auctionStatus n d
      · injection he with he1 he2
        subst he1
        subst he2
        simp [applyOp, close_auction, hp, kvGet_kvSet]
      · simp [applyOp, close_auction, hp, kvGet_kvSet, he, h]
    · simp [applyOp, close_auction, hp, h]
  | registerBidder n' =>
    by_cases hp : (kvGet s (Key.bidderRecord n')).isSome
    · simp [applyOp, add_bidder, hp, h]
    · simp [applyOp, add_bidder, hp, kvGet_kvSet, h]
  | placeBid b =>
    cases hsub : submit_bid s b with
    | none => simpa [applyOp, hsub] using h
    | some pr =>
      obtain ⟨r, s'⟩ := pr
      simp only [applyOp, hsub]
      rw [submit_bid_status_frame s b r s' hsub n d, h]

theorem closed_persists_ops (s : Store) (n d : Str)
    (h : kvGet s (Key.auctionStatus n d) = some (Val.str "CLOSED")) (ops : List Op) :
    kvGet (applyOps s ops) (Key.auctionStatus n d) = some (Val.str "CLOSED") := by
  induction ops generalizing s with
  | nil => exact h
  | cons op t ih => exact ih _ (closed_persists s n d h op)

/-- Claim C5: after `close_auction` returns on an existing auction, every
subsequent `submit_bid` on that auction — after any further sequence of
engine operations, for any bidder and any amount — fails as closed and
returns the store unchanged. -/
theorem C5_closed_then_submit_fails (s : Store) (n d : Str)
    (hp : (kvGet s (Key.auctionStatus n d)).isSome) (ops : List Op) (b : BidReq)
    (hn : b.aname = n) (hd : b.adesc = d) :
    submit_bid (applyOps (close_auction s n d).2 ops) b
      = some (Outcome.closed, applyOps (close_auction s n d).2 ops) := by
  subst hn
  subst hd
  have h1 : kvGet (close_auction s b.aname b.adesc).2
      (Key.auctionStatus b.aname b.adesc) = some (Val.str "CLOSED") := by
    simp [close_auction, hp, kvGet_kvSet]
  have h2 := closed_persists_ops _ b.aname b.adesc h1 ops
  unfold submit_bid
  rw [h2]
  dsimp only
  rw [if_pos rfl]

/-- Witness for `C5_closed_then_submit_fails`: close the pen auction right
after creating it, register a bidder in between, then bid 100. -/
theorem C5_closed_then_submit_fails_witness :
    (kvGet (add_auction [] "pen" "blue pen").2
        (Key.auctionStatus "pen" "blue pen")).isSome = true ∧
      submit_bid
          (applyOps (close_auction (add_auction [] "pen" "blue pen").2
              "pen" "blue pen").2 [Op.registerBidder "A"])
          ⟨"A", "pen", "blue pen", 100⟩
        = some (Outcome.closed,
            applyOps (close_auction (add_auction [] "pen" "blue pen").2
              "pen" "blue pen").2 [Op.registerBidder "A"]) :=
  ⟨by decide,
    C5_closed_then_submit_fails (add_auction [] "pen" "blue pen").2 "pen" "blue pen"
      (by decide) [Op.registerBidder "A"] ⟨"A", "pen", "blue pen", 100⟩ rfl rfl⟩

/-- Claim C7: on an auction absent from the store, the state queries
`winning_bid` and `is_auction_open` do not report the intended not-found
error: their absent branch raises `NameError`, because the source's print
statement references the undefined variable `bid` (source lines 142 and
152).  Both functions are pure reads by construction: they never write. -/
theorem C7_absent_auction_query_raises :
    winning_bid ([] : Store) "pen" "blue pen" = ReadOutcome.raisesNameError ∧
      is_auction_open ([] : Store) "pen" "blue pen" = ReadOutcome.raisesNameError :=
  ⟨rfl, rfl⟩

/-! ### The reachable-state invariant (for C10) -/

theorem AuctionInvAt_congr {s s' : Store} {n d : Str} {h : ℚ} {w : Str} {c : Nat}
    (e0 : kvGet s' (Key.auctionHighest n d) = kvGet s (Key.auctionHighest n d))
    (e1 : kvGet s' (Key.auctionWinner n d) = kvGet s (Key.auctionWinner n d))
    (e2 : kvGet s' (Key.auctionNumBids n d) = kvGet s (Key.auctionNumBids n d))
    (e3 : ∀ i, kvGet s' (Key.bidAuction n d i) = kvGet s (Key.bidAuction n d i))
    (a : AuctionInvAt s n d h w c) : AuctionInvAt s' n d h w c := by
  constructor
  · rw [e0]; exact a.highest
  · rw [e1]; exact a.winner
  · rw [e2]; exact a.count
  · intro i; rw [e3 i]; exact a.dom i
  · intro i h1 h2; rw [e3 i]; exact a.typed i h1 h2
  · intro i bn1 q1 bn2 q2 hh1 hh2
    rw [e3 i] at hh1
    rw [e3 (i + 1)] at hh2
    exact a.chain i bn1 q1 bn2 q2 hh1 hh2
  · exact a.base
  · intro hc1; rw [e3 c]; exact a.last hc1

theorem AuctionInv_congr {s s' : Store} {n d : Str}
    (es : kvGet s' (Key.auctionStatus n d) = kvGet s (Key.auctionStatus n d))
    (e0 : kvGet s' (Key.auctionHighest n d) = kvGet s (Key.auctionHighest n d))
    (e1 : kvGet s' (Key.auctionWinner n d) = kvGet s (Key.auctionWinner n d))
    (e2 : kvGet s' (Key.auctionNumBids n d) = kvGet s (Key.auctionNumBids n d))
    (e3 : ∀ i, kvGet s' (Key.bidAuction n d i) = kvGet s (Key.bidAuction n d i))
    (a : AuctionInv s n d) : AuctionInv s' n d := by
  unfold AuctionInv at a ⊢
  rw [es]
  cases hst : kvGet s (Key.auctionStatus n d) with
  | none =>
    rw [hst] at a
    intro i
    rw [e3 i]
    exact a i
  | some st =>
    rw [hst] at a
    obtain ⟨h, w, c, hat⟩ := a
    exact ⟨h, w, c, AuctionInvAt_congr e0 e1 e2 e3 hat⟩

theorem inv_createAuction (s : Store) (n0 d0 : Str) (hs : Inv s) :
    Inv (add_auction s n0 d0).2 := by
  by_cases hp : (kvGet s (Key.auctionStatus n0 d0)).isSome
  · have hid : (add_auction s n0 d0).2 = s := by simp [add_auction, hp]
    rw [hid]; exact hs
  · have habs : kvGet s (Key.auctionStatus n0 d0) = none := by
      cases hk : kvGet s (Key.auctionStatus n0 d0) with
      | none => rfl
      | some v => rw [hk] at hp; simp at hp
    have hs2 : (add_auction s n0 d0).2 = kvSet (kvSet (kvSet (kvSet s
        (Key.auctionStatus n0 d0) (Val.str "OPEN"))
        (Key.auctionHighest n0 d0) (Val.num 0))
        (Key.auctionWinner n0 d0) (Val.str ""))
        (Key.auctionNumBids n0 d0) (Val.int 0) := by
      simp [add_auction, hp]
    rw [hs2]
    intro n d
    by_cases hpair : n = n0 ∧ d = d0
    · obtain ⟨rfl, rfl⟩ := hpair
      have hent : ∀ i, kvGet s (Key.bidAuction n d i) = none := by
        have ha := hs n d
        unfold AuctionInv at ha
        rw [habs] at ha
        exact ha
      have hfr : ∀ i, kvGet (kvSet (kvSet (kvSet (kvSet s
          (Key.auctionStatus n d) (Val.str "OPEN"))
          (Key.auctionHighest n d) (Val.num 0))
          (Key.auctionWinner n d) (Val.str ""))
          (Key.auctionNumBids n d) (Val.int 0)) (Key.bidAuction n d i)
          = kvGet s (Key.bidAuction n d i) := by
        intro i
        simp [kvGet_kvSet]
      unfold AuctionInv
      have hstat : kvGet (kvSet (kvSet (kvSet (kvSet s
          (Key.auctionStatus n d) (Val.str "OPEN"))
          (Key.auctionHighest n d) (Val.num 0))
          (Key.auctionWinner n d) (Val.str ""))
          (Key.auctionNumBids n d) (Val.int 0)) (Key.auctionStatus n d)
          = some (Val.str "OPEN") := by
        simp [kvGet_kvSet]
      rw [hstat]
      refine ⟨0, "", 0, ?_, ?_, ?_, ?_, ?_, ?_, ?_, ?_⟩
      · simp [kvGet_kvSet]
      · simp [kvGet_kvSet]
      · simp [kvGet_kvSet]
      · intro i
        rw [hfr i, hent i]
        simp
        omega
      · intro i h1 h2
        omega
      · intro i bn1 q1 bn2 q2 he1 he2
        rw [hfr i, hent i] at he1
        exact absurd he1 (by simp)
      · intro _
        exact ⟨rfl, rfl⟩
      · intro h1
        exact absurd h1 (by omega)
    · have hne : ¬ (n0 = n ∧ d0 = d) := fun hh => hpair ⟨hh.1.symm, hh.2.symm⟩
      refine AuctionInv_congr ?_ ?_ ?_ ?_ ?_ (hs n d)
      · simp [kvGet_kvSet, hne]
      · simp [kvGet_kvSet, hne]
      · simp [kvGet_kvSet, hne]
      · simp [kvGet_kvSet, hne]
      · intro i
        simp [kvGet_kvSet]

theorem inv_closeAuction (s : Store) (n0 d0 : Str) (hs : Inv s) :
    Inv (close_auction s n0 d0).2 := by
  by_cases hp : (kvGet s (Key.auctionStatus n0 d0)).isSome
  · have hs2 : (close_auction s n0 d0).2
        = kvSet s (Key.auctionStatus n0 d0) (Val.str "CLOSED") := by
      simp [close_auction, hp]
    rw [hs2]
    intro n d
    by_cases hpair : n = n0 ∧ d = d0
    · obtain ⟨rfl, rfl⟩ := hpair
      obtain ⟨st, hst⟩ : ∃ st, kvGet s (Key.auctionStatus n d) = some st := by
        cases hk : kvGet s (Key.auctionStatus n d) with
        | none => rw [hk] at hp; simp at hp
        | some v => exact ⟨v, rfl⟩
      have ha := hs n d
      unfold AuctionInv at ha
      rw [hst] at ha
      obtain ⟨h, w, c, hat⟩ := ha
      unfold AuctionInv
      have hstat : kvGet (kvSet s (Key.auctionStatus n d) (Val.str "CLOSED"))
          (Key.auctionStatus n d) = some (Val.str "CLOSED") := by
        simp [kvGet_kvSet]
      rw [hstat]
      refine ⟨h, w, c, AuctionInvAt_congr ?_ ?_ ?_ ?_ hat⟩
      · simp [kvGet_kvSet]
      · simp [kvGet_kvSet]
      · simp [kvGet_kvSet]
      · intro i
        simp [kvGet_kvSet]
    · have hne : ¬ (n0 = n ∧ d0 = d) := fun hh => hpair ⟨hh.1.symm, hh.2.symm⟩
      refine AuctionInv_congr ?_ ?_ ?_ ?_ ?_ (hs n d)
      · simp [kvGet_kvSet, hne]
      · simp [kvGet_kvSet]
      · simp [kvGet_kvSet]
      · simp [kvGet_kvSet]
      · intro i
        simp [kvGet_kvSet]
  · have hid : (close_auction s n0 d0).2 = s := by simp [close_auction, hp]
    rw [hid]; exact hs

theorem inv_registerBidder (s : Store) (n0 : Str) (hs : Inv s) :
    Inv (add_bidder s n0).2 := by
  by_cases hp : (kvGet s (Key.bidderRecord n0)).isSome
  · have hid : (add_bidder s n0).2 = s := by simp [add_bidder, hp]
    rw [hid]; exact hs
  · have hs2 : (add_bidder s n0).2 = kvSet (kvSet s
        (Key.bidderRecord n0) (Val.str ("Bidder(" ++ n0 ++ ")")))
        (Key.bidderNumBids n0) (Val.int 0) := by
      simp [add_bidder, hp]
    rw [hs2]
    intro n d
    refine AuctionInv_congr ?_ ?_ ?_ ?_ ?_ (hs n d)
    · simp [kvGet_kvSet]
    · simp [kvGet_kvSet]
    · simp [kvGet_kvSet]
    · simp [kvGet_kvSet]
    · intro i
      simp [kvGet_kvSet]

theorem submitWrites_frame (s : Store) (b : BidReq) (c bc : Nat) (k : Key)
    (h1 : k ≠ Key.auctionHighest b.aname b.adesc)
    (h2 : k ≠ Key.auctionWinner b.aname b.adesc)
    (h3 : k ≠ Key.auctionNumBids b.aname b.adesc)
    (h4 : k ≠ Key.bidAuction b.aname b.adesc (c + 1))
    (h5 : k ≠ Key.bidderNumBids b.bidder)
    (h6 : k ≠ Key.bidBidder b.bidder (bc + 1)) :
    kvGet (submitWrites s b c bc) k = kvGet s k := by
  unfold submitWrites
  simp only [kvGet_kvSet]
  rw [if_neg (fun hh => h6 hh.symm), if_neg (fun hh => h5 hh.symm),
    if_neg (fun hh => h4 hh.symm), if_neg (fun hh => h3 hh.symm),
    if_neg (fun hh => h2 hh.symm), if_neg (fun hh => h1 hh.symm)]

theorem submitWrites_highest (s : Store) (b : BidReq) (c bc : Nat) :
    kvGet (submitWrites s b c bc) (Key.auctionHighest b.aname b.adesc)
      = some (Val.num b.amount) := by
  simp [submitWrites, kvGet_kvSet]

theorem submitWrites_winner (s : Store) (b : BidReq) (c bc : Nat) :
    kvGet (submitWrites s b c bc) (Key.auctionWinner b.aname b.adesc)
      = some (Val.str b.bidder) := by
  simp [submitWrites, kvGet_kvSet]

theorem submitWrites_count (s : Store) (b : BidReq) (c bc : Nat) :
    kvGet (submitWrites s b c bc) (Key.auctionNumBids b.aname b.adesc)
      = some (Val.int (c + 1)) := by
  simp [submitWrites, kvGet_kvSet]

theorem submitWrites_entry (s : Store) (b : BidReq) (c bc : Nat) :
    kvGet (submitWrites s b c bc) (Key.bidAuction b.aname b.adesc (c + 1))
      = some (Val.bidRepr b.bidder b.aname b.adesc b.amount) := by
  simp [submitWrites, kvGet_kvSet]

theorem submitWrites_status (s : Store) (b : BidReq) (c bc : Nat) (n d : Str) :
    kvGet (submitWrites s b c bc) (Key.auctionStatus n d)
      = kvGet s (Key.auctionStatus n d) := by
  apply submitWrites_frame <;> simp

theorem inv_placeBid (s : Store) (b : BidReq) (hs : Inv s) :
    Inv (applyOp s (Op.placeBid b)) := by
  cases hsub : submit_bid s b with
  | none => simpa [applyOp, hsub] using hs
  | some pr =>
    obtain ⟨r, s'⟩ := pr
    have happ : applyOp s (Op.placeBid b) = s' := by simp [applyOp, hsub]
    rw [happ]
    rcases submit_bid_spec s b r s' hsub with ⟨-, rfl⟩ |
      ⟨-, st, h0, c, bc, hst, hcl, hhi, hlt, hnw, hc, hbc, rfl⟩
    · exact hs
    · intro n d
      by_cases hpair : n = b.aname ∧ d = b.adesc
      · obtain ⟨rfl, rfl⟩ := hpair
        have ha := hs b.aname b.adesc
        unfold AuctionInv at ha
        rw [hst] at ha
        obtain ⟨h1, w1, c1, hat⟩ := ha
        have hh : h1 = h0 := by
          have hx := hat.highest
          rw [hhi] at hx
          exact (Val.num.inj (Option.some.inj hx)).symm
        rw [hh] at hat
        have hcc : c1 = c := by
          have hx := hat.count
          rw [hc] at hx
          exact (Val.int.inj (Option.some.inj hx)).symm
        rw [hcc] at hat
        have hwb : w1 ≠ b.bidder := by
          intro hcon
          apply hnw
          rw [hat.winner, hcon]
        have hq0 : 0 ≤ h0 := by
          rcases Nat.eq_zero_or_pos c with hc0 | hcpos
          · exact le_of_eq (hat.base hc0).1.symm
          · obtain ⟨bn, q, he, hqpos⟩ := hat.typed c hcpos (le_refl c)
            have hl := hat.last hcpos
            rw [he] at hl
            obtain ⟨-, -, -, hqe⟩ := Val.bidRepr.inj (Option.some.inj hl)
            rw [← hqe]
            exact le_of_lt hqpos
        have hpos : 0 < b.amount := lt_of_le_of_lt hq0 hlt
        unfold AuctionInv
        rw [submitWrites_status, hst]
        refine ⟨b.amount, b.bidder, c + 1,
          submitWrites_highest s b c bc, submitWrites_winner s b c bc,
          submitWrites_count s b c bc, ?_, ?_, ?_, ?_, ?_⟩
        · intro i
          by_cases hi : i = c + 1
          · subst hi
            rw [submitWrites_entry]
            simp
          · have hfr : kvGet (submitWrites s b c bc)
                (Key.bidAuction b.aname b.adesc i)
                = kvGet s (Key.bidAuction b.aname b.adesc i) := by
              apply submitWrites_frame
              · simp
              · simp
              · simp
              · intro hh
                injection hh with e1 e2 e3
                omega
              · simp
              · simp
            rw [hfr]
            rw [hat.dom i]
            constructor
            · intro hx; exact ⟨hx.1, by omega⟩
            · intro hx; exact ⟨hx.1, by omega⟩
        · intro i h1i h2i
          by_cases hi : i = c + 1
          · subst hi
            exact ⟨b.bidder, b.amount, submitWrites_entry s b c bc, hpos⟩
          · have hfr : kvGet (submitWrites s b c bc)
                (Key.bidAuction b.aname b.adesc i)
                = kvGet s (Key.bidAuction b.aname b.adesc i) := by
              apply submitWrites_frame
              · simp
              · simp
              · simp
              · intro hh
                injection hh with e1 e2 e3
                omega
              · simp
              · simp
            rw [hfr]
            exact hat.typed i h1i (by omega)
        · intro i bn1 q1 bn2 q2 he1 he2
          by_cases hi1 : i = c + 1
          · subst hi1
            have hfr2 : kvGet (submitWrites s b c bc)
                (Key.bidAuction b.aname b.adesc (c + 1 + 1))
                = kvGet s (Key.bidAuction b.aname b.adesc (c + 1 + 1)) := by
              apply submitWrites_frame
              · simp
              · simp
              · simp
              · intro hh
                injection hh with e1 e2 e3
                omega
              · simp
              · simp
            rw [hfr2] at he2
            have hmem := (hat.dom (c + 1 + 1)).mp (by rw [he2]; rfl)
            omega
          · by_cases hi2 : i + 1 = c + 1
            · have hic : i = c := by omega
              rw [hic] at he1
              rw [hi2] at he2
              have hfr1 : kvGet (submitWrites s b c bc)
                  (Key.bidAuction b.aname b.adesc c)
                  = kvGet s (Key.bidAuction b.aname b.adesc c) := by
                apply submitWrites_frame
                · simp
                · simp
                · simp
                · intro hh
                  injection hh with e1 e2 e3
                  omega
                · simp
                · simp
              rw [hfr1] at he1
              have hc1 : 1 ≤ c := by
                have := (hat.dom c).mp (by rw [he1]; rfl)
                omega
              have hl := hat.last hc1
              rw [he1] at hl
              obtain ⟨hbn1, -, -, hq1⟩ := Val.bidRepr.inj (Option.some.inj hl)
              rw [submitWrites_entry] at he2
              obtain ⟨hbn2, -, -, hq2⟩ := Val.bidRepr.inj (Option.some.inj he2)
              constructor
              · rw [hq1, ← hq2]
                exact hlt
              · rw [hbn1, ← hbn2]
                exact hwb
            · have hfr1 : kvGet (submitWrites s b c bc)
                  (Key.bidAuction b.aname b.adesc i)
                  = kvGet s (Key.bidAuction b.aname b.adesc i) := by
                apply submitWrites_frame
                · simp
                · simp
                · simp
                · intro hh
                  injection hh with e1 e2 e3
                  omega
                · simp
                · simp
              have hfr2 : kvGet (submitWrites s b c bc)
                  (Key.bidAuction b.aname b.adesc (i + 1))
                  = kvGet s (Key.bidAuction b.aname b.adesc (i + 1)) := by
                apply submitWrites_frame
                · simp
                · simp
                · simp
                · intro hh
                  injection hh with e1 e2 e3
                  omega
                · simp
                · simp
              rw [hfr1] at he1
              rw [hfr2] at he2
              exact hat.chain i bn1 q1 bn2 q2 he1 he2
        · intro hcon
          exact absurd hcon (by omega)
        · intro _
          exact submitWrites_entry s b c bc
      · have hne : ¬ (b.aname = n ∧ b.adesc = d) :=
          fun hh => hpair ⟨hh.1.symm, hh.2.symm⟩
        refine AuctionInv_congr ?_ ?_ ?_ ?_ ?_ (hs n d)
        · exact submitWrites_status s b c bc n d
        · apply submitWrites_frame
          · simp
            intro hh1 hh2
            exact hpair ⟨hh1, hh2⟩
          · simp
          · simp
          · simp
          · simp
          · simp
        · apply submitWrites_frame
          · simp
          · simp
            intro hh1 hh2
            exact hpair ⟨hh1, hh2⟩
          · simp
          · simp
          · simp
          · simp
        · apply submitWrites_frame
          · simp
          · simp
          · simp
            intro hh1 hh2
            exact hpair ⟨hh1, hh2⟩
          · simp
          · simp
          · simp
        · intro i
          apply submitWrites_frame
          · simp
          · simp
          · simp
          · simp
            intro hh1 hh2 hh3
            exact hpair ⟨hh1, hh2⟩
          · simp
          · simp

theorem inv_applyOp (s : Store) (op : Op) (hs : Inv s) : Inv (applyOp s op) := by
  cases op with
  | createAuction n0 d0 => exact inv_createAuction s n0 d0 hs
  | closeAuction n0 d0 => exact inv_closeAuction s n0 d0 hs
  | registerBidder n0 => exact inv_registerBidder s n0 hs
  | placeBid b => exact inv_placeBid s b hs

theorem inv_empty : Inv ([] : Store) := by
  intro n d
  unfold AuctionInv
  have : kvGet ([] : Store) (Key.auctionStatus n d) = none := rfl
  rw [this]
  intro i
  rfl

theorem inv_applyOps (s : Store) (ops : List Op) (hs : Inv s) : Inv (applyOps s ops) := by
  induction ops generalizing s with
  | nil => exact hs
  | cons op t ih => exact ih _ (inv_applyOp s op hs)

theorem reachable_inv (s : Store) (hr : Reachable s) : Inv s := by
  obtain ⟨ops, rfl⟩ := hr
  exact inv_applyOps [] ops inv_empty

/-- Claim C10: on every reachable store, (i) an accepted `submit_bid`
strictly increases the auction's highestBid (the previous highest exists and
is strictly below the bid amount, which becomes the new highest) and changes
winningBidderName to a name different from the previous one, and (ii) every
entry of any auction's bid log is a positive bid on that auction, and
consecutive log entries have strictly increasing amounts and distinct bidder
names. -/
theorem C10_accepted_bids_increase (s : Store) (hr : Reachable s) :
    (∀ b r s', submit_bid s b = some (r, s') → r = Outcome.accepted →
      (∃ h0, kvGet s (Key.auctionHighest b.aname b.adesc) = some (Val.num h0) ∧
        h0 < b.amount) ∧
      kvGet s' (Key.auctionHighest b.aname b.adesc) = some (Val.num b.amount) ∧
      (∀ w, kvGet s (Key.auctionWinner b.aname b.adesc) = some (Val.str w) →
        w ≠ b.bidder) ∧
      kvGet s' (Key.auctionWinner b.aname b.adesc) = some (Val.str b.bidder)) ∧
    (∀ n d i v, kvGet s (Key.bidAuction n d i) = some v →
      ∃ bn q, v = Val.bidRepr bn n d q ∧ 0 < q) ∧
    (∀ n d i bn1 q1 bn2 q2,
      kvGet s (Key.bidAuction n d i) = some (Val.bidRepr bn1 n d q1) →
      kvGet s (Key.bidAuction n d (i + 1)) = some (Val.bidRepr bn2 n d q2) →
      q1 < q2 ∧ bn1 ≠ bn2) := by
  have hinv := reachable_inv s hr
  refine ⟨?_, ?_, ?_⟩
  · intro b r s' hsub hacc
    subst hacc
    rcases submit_bid_spec s b Outcome.accepted s' hsub with ⟨hna, -⟩ |
      ⟨-, st, h0, c, bc, hst, hcl, hhi, hlt, hnw, hc, hbc, rfl⟩
    · exact absurd rfl hna
    · refine ⟨⟨h0, hhi, hlt⟩, submitWrites_highest s b c bc, ?_,
        submitWrites_winner s b c bc⟩
      intro w hw hcon
      apply hnw
      rw [hw, hcon]
  · intro n d i v hv
    have ha := hinv n d
    unfold AuctionInv at ha
    cases hst : kvGet s (Key.auctionStatus n d) with
    | none =>
      rw [hst] at ha
      rw [ha i] at hv
      exact absurd hv (by simp)
    | some st =>
      rw [hst] at ha
      obtain ⟨h1, w1, c1, hat⟩ := ha
      have hdom := (hat.dom i).mp (by rw [hv]; rfl)
      obtain ⟨bn, q, he, hq⟩ := hat.typed i hdom.1 hdom.2
      rw [hv] at he
      exact ⟨bn, q, Option.some.inj he, hq⟩
  · intro n d i bn1 q1 bn2 q2 he1 he2
    have ha := hinv n d
    unfold AuctionInv at ha
    cases hst : kvGet s (Key.auctionStatus n d) with
    | none =>
      rw [hst] at ha
      rw [ha i] at he1
      exact absurd he1 (by simp)
    | some st =>
      rw [hst] at ha
      obtain ⟨h1, w1, c1, hat⟩ := ha
      exact hat.chain i bn1 q1 bn2 q2 he1 he2

/-- Witness for `C10_accepted_bids_increase`: the store after the pen-auction
scenario is reachable, and the chain property applied to its two log entries
gives 5 < 7 with distinct bidders. -/
theorem C10_accepted_bids_increase_witness :
    Reachable penS5 ∧ ((5 : ℚ) < 7 ∧ ("A" : Str) ≠ "B") := by
  have hr : Reachable penS5 :=
    ⟨[Op.createAuction "pen" "blue pen", Op.registerBidder "A", Op.registerBidder "B",
      Op.placeBid bidA5, Op.placeBid bidB5, Op.placeBid bidB7], by decide⟩
  exact ⟨hr, (C10_accepted_bids_increase penS5 hr).2.2 "pen" "blue pen" 1 "A" 5 "B" 7
    (by decide) (by decide)⟩

/-- Claim C9: starting from the empty store — create auction
`("pen","blue pen")`, register bidders `"A"` and `"B"` — then: `A`'s bid of
5.0 is accepted with highestBid 5.0 and winner `"A"`; `B`'s bid of 5.0 is
rejected as too low leaving the store unchanged; `B`'s bid of 7.0 is
accepted with highestBid 7.0 and winner `"B"`; the auction's bid log
enumerates exactly `A:5.0` then `B:7.0` in that order, bidder `"A"`'s log
exactly `[5.0]`, bidder `"B"`'s log exactly `[7.0]`. -/
theorem C9_end_to_end :
    submit_bid penS3 bidA5 = some (Outcome.accepted, penS4) ∧
    kvGet penS4 (Key.auctionHighest "pen" "blue pen") = some (Val.num 5) ∧
    kvGet penS4 (Key.auctionWinner "pen" "blue pen") = some (Val.str "A") ∧
    submit_bid penS4 bidB5 = some (Outcome.tooLow, penS4) ∧
    submit_bid penS4 bidB7 = some (Outcome.accepted, penS5) ∧
    kvGet penS5 (Key.auctionHighest "pen" "blue pen") = some (Val.num 7) ∧
    kvGet penS5 (Key.auctionWinner "pen" "blue pen") = some (Val.str "B") ∧
    bids_for_auction penS5 "pen" "blue pen"
      = [(1, Val.bidRepr "A" "pen" "blue pen" 5),
         (2, Val.bidRepr "B" "pen" "blue pen" 7)] ∧
    bids_for_bidder penS5 "A" = [(1, Val.bidRepr "A" "pen" "blue pen" 5)] ∧
    bids_for_bidder penS5 "B" = [(1, Val.bidRepr "B" "pen" "blue pen" 7)] := by
  decide

/-- Counterexample to claim C8 as stated: the `submit_bid` transaction body
performs an externally observable side effect that does not go through the
transaction handle — it prints to the console (source line 196).  On a
concrete accepted bid the body's printed output is nonempty, so a body
re-run after a store-level conflict repeats it. -/
theorem C8_counterexample :
    submit_bid_output penS3 bidA5 = [Msg.printNewHighestBid "A" "pen" 5] ∧
      [Msg.printNewHighestBid "A" "pen" 5] ≠ ([] : List Msg) := by
  exact ⟨by decide, by decide⟩

/-- Claim C8 (amended): each transaction body touches the store only through
handle reads and writes and is a deterministic function of its snapshot, but
it also prints to the console: every run of the `submit_bid` body that
completes without raising an exception prints at least one line, so a
conflict-retried body repeats its console output even though its store
effects are those of the final run alone. -/
theorem C8_body_prints (s : Store) (b : BidReq) (r : Outcome) (s' : Store)
    (h : submit_bid s b = some (r, s')) : submit_bid_output s b ≠ [] := by
  unfold submit_bid at h
  unfold submit_bid_output
  cases hst : kvGet s (Key.auctionStatus b.aname b.adesc) with
  | none => simp
  | some st =>
    rw [hst] at h
    dsimp only at h ⊢
    by_cases hcl : st = Val.str "CLOSED"
    · rw [if_pos hcl]
      simp
    · rw [if_neg hcl] at h ⊢
      cases hhi : kvGet s (Key.auctionHighest b.aname b.adesc) with
      | none =>
        rw [hhi] at h
        simp at h
      | some v =>
        rw [hhi] at h
        cases v with
        | num h0 =>
          dsimp only at h ⊢
          by_cases hle : b.amount ≤ h0
          · rw [if_pos hle]
            simp
          · rw [if_neg hle] at h ⊢
            by_cases hw : kvGet s (Key.auctionWinner b.aname b.adesc)
                = some (Val.str b.bidder)
            · rw [if_pos hw]
              simp
            · rw [if_neg hw] at h ⊢
              cases hc : kvGet s (Key.auctionNumBids b.aname b.adesc) with
              | none =>
                rw [hc] at h
                simp at h
              | some cv =>
                rw [hc] at h
                cases cv with
                | int c => simp
                | str x => simp at h
                | num q => simp at h
                | bidRepr x y z q => simp at h
        | str x => simp at h
        | int m => simp at h
        | bidRepr x y z q => simp at h

/-- Witness for `C8_body_prints`: `B`'s rejected 5.0 bid completes (with the
too-low outcome) and its body printed a line. -/
theorem C8_body_prints_witness :
    submit_bid penS4 bidB5 = some (Outcome.tooLow, penS4) ∧
      submit_bid_output penS4 bidB5 ≠ [] :=
  ⟨by decide, C8_body_prints penS4 bidB5 Outcome.tooLow penS4 (by decide)⟩

end MiniAuction
